import Mathlib

/-!
Verification of the bisection-based thermodynamic solvers in
`thermo_scripts.py` (skew-T calculator).

The Python source is embedded shallowly over `ℝ` (idealising IEEE doubles as
exact real arithmetic, `math.exp`/`math.log`/`**` as `Real.exp`/`Real.log`/
`Real.rpow`).  The unbounded `while` loops of the source are given an explicit
fuel parameter and return `Option`: `none` models a run that has not terminated
within the given fuel, `some` a completed run, so every statement about a
completed run is conditioned on `= some _`.  The two bisection loop shapes of
the source (the residual-magnitude loop shared by `LCL` and `theta_wb`, and the
interval-width loop of `mix_ratio`/`MALR`) are written once each, generically
over a linear ordered field, so that witnesses can be evaluated over `ℚ`.
-/

namespace ThermoScripts

/-- Gas constant for dry air (J/kg*K), as re-declared in each source function. -/
def Rd : ℝ := 287.04

/-- Specific heat of dry air at constant pressure (J/kg*K). -/
def cp : ℝ := 1005.0

/-- Ratio of molar mass of water vapor to molar mass of dry air. -/
def epn : ℝ := 0.622

/-- Enthalpy of vaporization (J/kg), `lv = 2.5 * (10**6)` in the source. -/
def lv : ℝ := 2.5 * 10 ^ 6

/-- Gas constant for water vapor (J/kg*K). -/
def Rv : ℝ := 461.5

/-- `e_s(T)`: equilibrium vapor pressure, source lines 25-43:
`evp = 611*exp((lv/Rv)*((1/273.15) - (1/T)))`. -/
noncomputable def e_s (T : ℝ) : ℝ := 611 * Real.exp ((lv / Rv) * (1 / 273.15 - 1 / T))

/-- One body execution of the bisection loop shared by `LCL` (lines 98-109) and
`theta_wb` (lines 270-284).  The state is `(upper bound, lower bound)`; the
midpoint `0.5*(T_up + T_low)` replaces the lower bound when the residual
changes sign between the upper bound and the midpoint, and the upper bound
otherwise. -/
def bisectAdvance {α : Type} [LinearOrderedField α] (f : α → α) (s : α × α) : α × α :=
  let mid := (s.1 + s.2) / 2
  if (0 < f s.1 ∧ f mid < 0) ∨ (f s.1 < 0 ∧ 0 < f mid) then (s.1, mid) else (mid, s.2)

/-- The `while abs(abs(upper) - abs(lower)) > 0.000001` loop of `LCL` and
`theta_wb`, with fuel.  Returns the final bracket. -/
def bisectLoop {α : Type} [LinearOrderedField α] (f : α → α) : ℕ → α × α → Option (α × α)
  | 0, _ => none
  | n + 1, s =>
    if 1 / 1000000 < |(|f s.1|) - (|f s.2|)| then bisectLoop f n (bisectAdvance f s)
    else some s

/-- One guarded step of the `LCL`/`theta_wb` loop: advance if the convergence
test fails, stay put once it holds.  `lclState` iterates this to expose the
bracket after `i` iterations. -/
def bisectStepG {α : Type} [LinearOrderedField α] (f : α → α) (s : α × α) : α × α :=
  if 1 / 1000000 < |(|f s.1|) - (|f s.2|)| then bisectAdvance f s else s

/-- `P_lcl` as a function of the trial LCL temperature `x`, Poisson's relation
anchored at the surface state `(T, P)`: `((x/T)**(cp/Rd)) * P`
(source lines 93, 96, 100, 106, 108, 113). -/
noncomputable def lclP (T P x : ℝ) : ℝ := (x / T) ^ ((cp / Rd : ℝ)) * P

/-- The LCL bisection residual `w - (epn*e_s(x)) / (P_lcl(x) - e_s(x))`
(source lines 94, 97, 101, 107, 109). -/
noncomputable def lclResidual (T P w x : ℝ) : ℝ :=
  w - (epn * e_s x) / (lclP T P x - e_s x)

/-- `LCL(T, P, Td)`, source lines 46-115.  Returns `(T_lcl, P_lcl)`.  The
degenerate branch `T == Td` returns the surface state with no iteration;
otherwise the bisection runs from the bracket `(T, 150.0)` and the result is
the midpoint `0.5*(T_low + T_up)` of the final bracket, with `P_lcl`
recomputed once from it via `lclP`. -/
noncomputable def LCL (fuel : ℕ) (T P Td : ℝ) : Option (ℝ × ℝ) :=
  if T = Td then some (T, P)
  else
    (bisectLoop (lclResidual T P ((epn * e_s Td) / (P - e_s Td))) fuel (T, 150)).map
      (fun s => ((s.2 + s.1) / 2, lclP T P ((s.2 + s.1) / 2)))

/-- The bracket of the `LCL` bisection after `i` loop iterations, starting from
the initial bracket `(T_up, T_low) = (T, 150.0)` of source lines 92, 95. -/
noncomputable def lclState (T P Td : ℝ) (i : ℕ) : ℝ × ℝ :=
  (bisectStepG (lclResidual T P ((epn * e_s Td) / (P - e_s Td))))^[i] (T, 150)

/-- `mixing(Td, P)`, source lines 118-135: `w = epn * (e_s(Td) / (P - e_s(Td)))`. -/
noncomputable def mixing (Td P : ℝ) : ℝ := epn * (e_s Td / (P - e_s Td))

/-- The dry potential temperature at the LCL computed by `theta_e` (lines
169-171) and `theta_wb` (lines 257-258):
`thet_d = T_lcl * ((100000.0 / (P_lcl - e_s(T_lcl))) ** (Rd/cp))`.
Note the denominator is `P_lcl - e_s(T_lcl)`, not `P_lcl`. -/
noncomputable def thetaD (Tl Pl : ℝ) : ℝ :=
  Tl * ((100000.0 / (Pl - e_s Tl)) ^ ((Rd / cp : ℝ)))

/-- `theta_e(T, P, Td)`, source lines 138-176, conditioned on the embedded
`LCL` call completing. -/
noncomputable def theta_e (fuel : ℕ) (T P Td : ℝ) : Option ℝ :=
  (LCL fuel T P Td).map (fun s =>
    thetaD s.1 s.2 * Real.exp ((lv * mixing s.1 s.2) / (cp * s.1)))

/-- The wet-bulb bisection residual of `theta_wb`, source lines 262-284:
`thet_d * exp((lv/cp) * ((w/T_lcl) - (w_s(x, 100000)/x))) - x` where
`w = mixing(T_lcl, P_lcl)` and the saturation mixing ratio is taken at the
reference pressure 100000 Pa. -/
noncomputable def wbResidual (Tl Pl x : ℝ) : ℝ :=
  thetaD Tl Pl * Real.exp ((lv / cp) * (mixing Tl Pl / Tl - mixing x 100000.0 / x)) - x

/-- `theta_wb(T, P, Td)`, source lines 224-287: find the LCL, then bisect the
wet-bulb residual from the bracket `(100.0, thet_d)` and return the midpoint
`0.5*(thet_wb_low + thet_wb_up)` of the final bracket. -/
noncomputable def theta_wb (lclFuel fuel : ℕ) (T P Td : ℝ) : Option ℝ :=
  (LCL lclFuel T P Td).bind (fun s =>
    (bisectLoop (wbResidual s.1 s.2) fuel ((100 : ℝ), thetaD s.1 s.2)).map
      (fun q => (q.2 + q.1) / 2))

/-- The wet-bulb fixed-point residual as the spec phrases it (claim C6), with
the dry potential temperature spelled out (amended to the quantity the code
actually computes): `f(x) = theta_dry * exp[(lv/cp) * (w/T_lcl -
w_s(x, 100000 Pa)/x)] - x`, where `w = mixing(T_lcl, P_lcl)` and
`theta_dry = T_lcl * (100000/(P_lcl - e_s(T_lcl))) ^ (Rd/cp)`. -/
noncomputable def wbResidualSpec (Tl Pl x : ℝ) : ℝ :=
  (Tl * ((100000.0 / (Pl - e_s Tl)) ^ ((Rd / cp : ℝ)))) *
    Real.exp ((lv / cp) * (mixing Tl Pl / Tl - mixing x 100000.0 / x)) - x

/-- `theta(T, P)`, source lines 316-336: `thet = T * ((100000.0 / P) ** (Rd/cp))`. -/
noncomputable def theta (T P : ℝ) : ℝ := T * ((100000.0 / P) ^ ((Rd / cp : ℝ)))

/-- `DALR(theta, p1, p2, step)`, source lines 339-370: the dry adiabat sampled
at `floor((p1-p2)/step) + 1` pressure levels `p1 - step*i`, with temperature
`((100000.0 / p) ** ((1 - gamma)/gamma)) * theta`, `gamma = 1.4`. -/
noncomputable def DALR (thet p1 p2 step : ℝ) : List (ℝ × ℝ) :=
  (List.range (⌊(p1 - p2) / step⌋.toNat + 1)).map (fun (i : ℕ) =>
    (p1 - step * (i : ℝ), ((100000.0 / (p1 - step * (i : ℝ))) ^ (((1 - 1.4) / 1.4 : ℝ))) * thet))

/-- One body execution of the width-criterion bisection of `mix_ratio`
(lines 409-417) and `MALR` (lines 458-466); the midpoint is
`0.5*(T_low + T_up)`. -/
def mixAdvance {α : Type} [LinearOrderedField α] (f : α → α) (s : α × α) : α × α :=
  let mid := (s.2 + s.1) / 2
  if (0 < f s.1 ∧ f mid < 0) ∨ (f s.1 < 0 ∧ 0 < f mid) then (s.1, mid) else (mid, s.2)

/-- The `while abs(T_up - T_low) > 0.01` loop of `mix_ratio`/`MALR`: the
criterion is the width of the temperature bracket, not residual agreement. -/
def mixLoop {α : Type} [LinearOrderedField α] (f : α → α) : ℕ → α × α → Option (α × α)
  | 0, _ => none
  | n + 1, s =>
    if 1 / 100 < |s.1 - s.2| then mixLoop f n (mixAdvance f s)
    else some s

/-- The analytic upper bound of the `mix_ratio` bracket, source lines 404-405:
`T_up = (1/273.15 - (Rv/lv)*log((p - 5000.0)/611.0)) ** (-1.0)`, the
temperature at which the vapor pressure equals `p - 5000`. -/
noncomputable def mixTup (p : ℝ) : ℝ :=
  (1 / 273.15 - (Rv / lv) * Real.log ((p - 5000.0) / 611.0)) ^ ((-1 : ℝ))

/-- One pressure level of `mix_ratio`, source lines 403-418: bisect
`mixing(x, p) - w` from the bracket `(mixTup p, 150.0)` and pair the pressure
with the midpoint `0.5*(T_up + T_low)` of the final bracket. -/
noncomputable def mixLevel (fuel : ℕ) (w p : ℝ) : Option (ℝ × ℝ) :=
  (mixLoop (fun x => mixing x p - w) fuel (mixTup p, 150)).map
    (fun q => (p, (q.1 + q.2) / 2))

/-- Collects a list of per-level results, failing if any level failed. -/
def optList {β : Type} : List (Option β) → Option (List β)
  | [] => some []
  | none :: _ => none
  | some b :: rest => (optList rest).map (b :: ·)

/-- `mix_ratio(w, p1, p2, step)`, source lines 373-420: one `mixLevel` call per
pressure level `p1 - step*i`, `i = 0 .. floor((p1-p2)/step)`. -/
noncomputable def mix_ratio (fuel : ℕ) (w p1 p2 step : ℝ) : Option (List (ℝ × ℝ)) :=
  optList ((List.range (⌊(p1 - p2) / step⌋.toNat + 1)).map
    (fun (i : ℕ) => mixLevel fuel w (p1 - step * (i : ℝ))))

/-- The width-criterion bisection of `MALR` (lines 458-466), whose residual
itself may fail to terminate (it contains an `LCL` solve): evaluates the
residual at the current upper bound, the current lower bound and the midpoint
`0.5*(T_low + T_up)`, as the source body does. -/
noncomputable def mLoopO (f : ℝ → Option ℝ) : ℕ → ℝ × ℝ → Option (ℝ × ℝ)
  | 0, _ => none
  | n + 1, s =>
    if 1 / 100 < |s.1 - s.2| then
      (f s.1).bind (fun fu => (f s.2).bind (fun _ => (f ((s.2 + s.1) / 2)).bind (fun fm =>
        if (0 < fu ∧ fm < 0) ∨ (fu < 0 ∧ 0 < fm) then mLoopO f n (s.1, (s.2 + s.1) / 2)
        else mLoopO f n ((s.2 + s.1) / 2, s.2))))
    else some s

/-- The integer pressure levels of `MALR`'s `xrange(int(p1), int(p2 - 1),
int((-1)*step))` (line 453): `a, a - s, a - 2*s, ...` while `> b`. -/
def xrangeDown (a b s : ℤ) : List ℤ :=
  (List.range ((a - b + s - 1) / s).toNat).map (fun (k : ℕ) => a - s * (k : ℤ))

/-- `MALR(thet_e_0, p1, p2, step)`, source lines 423-472, for integer-valued
bounds and step (the source converts them with `int(...)` before iterating):
per level, bisect `theta_e(x, p, x) - thet_e_0` from the bracket
`(T_up, 100.0)` with the same analytic `T_up` as `mix_ratio`, and pair `p`
with the midpoint `0.5*(T_up + T_low)` of the final bracket. -/
noncomputable def MALR (lclFuel fuel : ℕ) (thet_e_0 : ℝ) (p1 p2 step : ℤ) :
    Option (List (ℤ × ℝ)) :=
  optList ((xrangeDown p1 (p2 - 1) step).map (fun (p : ℤ) =>
    (mLoopO (fun x => (theta_e lclFuel x (p : ℝ) x).map (fun v => v - thet_e_0)) fuel
        ((1 / 273.15 - (Rv / lv) * Real.log (((p : ℝ) - 5000.0) / 611.0)) ^ ((-1 : ℝ)), 100)).map
      (fun q => (p, (q.1 + q.2) / 2))))

/-- `virt_T(T, w)`, source lines 475-487: `T_v = T * (1 + 0.61*w)`. -/
noncomputable def virt_T (T w : ℝ) : ℝ := T * (1 + 0.61 * w)

/-- The virtual temperature the `EL` scan (source lines 734-736) computes at
scan step `i` from a temperature list `t`, a dew-point list `d` and the
pressure list `prs`: the Python index `-1-i` is `length - 1 - i`. -/
noncomputable def scanTv (prs t d : List ℝ) (i : ℕ) : ℝ :=
  virt_T (t.getD (prs.length - 1 - i) 0)
    (mixing (d.getD (prs.length - 1 - i) 0) (prs.getD (prs.length - 1 - i) 0))

/-- The scan loop of `EL`, source lines 734-746, over already-built co-indexed
profiles: starting from the top (`i = 0`), return the sample pressure on exact
virtual-temperature equality; return `0.5*(prs_below + prs_above)` where
`prs_above = prs_prof[(-1)*i]` (which is index `0` -- the surface -- when
`i = 0`, and index `length - i` otherwise) when the parcel is warmer; else
continue downward.  Falling off the end (`no break` in Python, leaving `el`
unbound) is `none`. -/
noncomputable def ELscanAux (prs et ed pt pd : List ℝ) (i : ℕ) : Option ℝ :=
  if h : i < prs.length then
    if scanTv prs et ed i = scanTv prs pt pd i then
      some (prs.getD (prs.length - 1 - i) 0)
    else if scanTv prs et ed i < scanTv prs pt pd i then
      some (0.5 * (prs.getD (prs.length - 1 - i) 0 +
        prs.getD (if i = 0 then 0 else prs.length - i) 0))
    else ELscanAux prs et ed pt pd (i + 1)
  else none
termination_by prs.length - i
decreasing_by simp_wf; omega

/-- The `EL` buoyancy scan over given profiles (environment temperature/dew
point `et`, `ed`, parcel temperature/dew point `pt`, `pd`). -/
noncomputable def ELscan (prs et ed pt pd : List ℝ) : Option ℝ :=
  ELscanAux prs et ed pt pd 0

/-! ### Generic facts about the residual-magnitude bisection loop -/

lemma bisectLoop_exit {α : Type} [LinearOrderedField α] (f : α → α) (n : ℕ) (s : α × α)
    (h : |(|f s.1|) - (|f s.2|)| ≤ 1 / 1000000) : bisectLoop f (n + 1) s = some s := by
  simp only [bisectLoop]
  rw [if_neg (not_lt.mpr h)]

lemma bisectLoop_crit {α : Type} [LinearOrderedField α] (f : α → α) :
    ∀ (n : ℕ) (s q : α × α), bisectLoop f n s = some q →
      |(|f q.1|) - (|f q.2|)| ≤ 1 / 1000000 := by
  intro n
  induction n with
  | zero => intro s q h; simp [bisectLoop] at h
  | succ n ih =>
    intro s q h
    simp only [bisectLoop] at h
    split at h
    · exact ih _ _ h
    · injection h with h2
      subst h2
      next hc => exact not_lt.mp hc

lemma bisectAdvance_envelope {α : Type} [LinearOrderedField α] (f : α → α) (s : α × α) :
    min s.1 s.2 ≤ (bisectAdvance f s).1 ∧ (bisectAdvance f s).1 ≤ max s.1 s.2 ∧
    min s.1 s.2 ≤ (bisectAdvance f s).2 ∧ (bisectAdvance f s).2 ≤ max s.1 s.2 := by
  have h1 := min_le_left s.1 s.2
  have h2 := min_le_right s.1 s.2
  have h3 := le_max_left s.1 s.2
  have h4 := le_max_right s.1 s.2
  simp only [bisectAdvance]
  split <;> refine ⟨?_, ?_, ?_, ?_⟩ <;> dsimp only <;> linarith

lemma bisectLoop_envelope {α : Type} [LinearOrderedField α] (f : α → α) :
    ∀ (n : ℕ) (s q : α × α), bisectLoop f n s = some q →
      (min s.1 s.2 ≤ q.1 ∧ q.1 ≤ max s.1 s.2) ∧
      (min s.1 s.2 ≤ q.2 ∧ q.2 ≤ max s.1 s.2) := by
  intro n
  induction n with
  | zero => intro s q h; simp [bisectLoop] at h
  | succ n ih =>
    intro s q h
    simp only [bisectLoop] at h
    split at h
    · obtain ⟨⟨ha, hb⟩, hc, hd⟩ := ih _ _ h
      obtain ⟨e1, e2, e3, e4⟩ := bisectAdvance_envelope f s
      have hm1 : min s.1 s.2 ≤ min (bisectAdvance f s).1 (bisectAdvance f s).2 := le_min e1 e3
      have hm2 : max (bisectAdvance f s).1 (bisectAdvance f s).2 ≤ max s.1 s.2 := max_le e2 e4
      exact ⟨⟨le_trans hm1 ha, le_trans hb hm2⟩, le_trans hm1 hc, le_trans hd hm2⟩
    · injection h with h2
      subst h2
      exact ⟨⟨min_le_left _ _, le_max_left _ _⟩, min_le_right _ _, le_max_right _ _⟩

/-! ### Concrete bounds on the vapor-pressure exponential -/

lemma exp_le_pow37 {n : ℕ} {x : ℝ} (h : x ≤ -(n : ℝ)) : Real.exp x ≤ (0.37 : ℝ) ^ n := by
  have h1 : Real.exp x ≤ Real.exp (-(n : ℝ)) := Real.exp_le_exp.mpr h
  have h2 : Real.exp (-(n : ℝ)) = Real.exp (-1) ^ n := by
    rw [show -(n : ℝ) = (n : ℝ) * (-1) by ring, Real.exp_nat_mul]
  have h3 : Real.exp (-1) ≤ (0.37 : ℝ) := by
    rw [Real.exp_neg]
    have hx : ((0.37 : ℝ))⁻¹ ≤ Real.exp 1 :=
      le_trans (by norm_num) Real.exp_one_gt_d9.le
    calc (Real.exp 1)⁻¹ ≤ ((0.37 : ℝ)⁻¹)⁻¹ :=
          inv_le_inv_of_le (by norm_num) hx
      _ = (0.37 : ℝ) := inv_inv _
  calc Real.exp x ≤ Real.exp (-1) ^ n := by rw [← h2]; exact h1
    _ ≤ (0.37 : ℝ) ^ n := pow_le_pow_left (Real.exp_pos _).le h3 n

lemma e_s_pos (T : ℝ) : 0 < e_s T := by
  unfold e_s
  positivity

lemma e_s_le {T : ℝ} {n : ℕ} (h : (lv / Rv) * (1 / 273.15 - 1 / T) ≤ -(n : ℝ)) :
    e_s T ≤ 611 * (0.37 : ℝ) ^ n := by
  unfold e_s
  have := exp_le_pow37 h
  nlinarith [Real.exp_pos ((lv / Rv) * (1 / 273.15 - 1 / T))]

/-! ### Claim theorems -/

/-- C1: whenever the residual-magnitude bisection loop of `LCL`/`theta_wb`
terminates, the absolute-residual criterion `| |f(upper)| - |f(lower)| | <=
1e-6` holds at the final bracket, and conversely the loop exits as soon as the
criterion holds; the value `LCL`/`theta_wb` then return is the midpoint
`0.5*(lower + upper)` of that final bracket. -/
theorem spec_C1 {α : Type} [LinearOrderedField α] (f : α → α) (n : ℕ) (s : α × α) :
    (|(|f s.1|) - (|f s.2|)| ≤ 1 / 1000000 → bisectLoop f (n + 1) s = some s)
    ∧ (∀ q : α × α, bisectLoop f n s = some q → |(|f q.1|) - (|f q.2|)| ≤ 1 / 1000000)
    ∧ (∀ (fuel : ℕ) (T P Td : ℝ) (q : ℝ × ℝ), T ≠ Td →
        bisectLoop (lclResidual T P ((epn * e_s Td) / (P - e_s Td))) fuel (T, 150) = some q →
        LCL fuel T P Td = some ((q.2 + q.1) / 2, lclP T P ((q.2 + q.1) / 2)))
    ∧ (∀ (lclFuel fuel : ℕ) (T P Td Tl Pl : ℝ) (q : ℝ × ℝ),
        LCL lclFuel T P Td = some (Tl, Pl) →
        bisectLoop (wbResidual Tl Pl) fuel ((100 : ℝ), thetaD Tl Pl) = some q →
        theta_wb lclFuel fuel T P Td = some ((q.2 + q.1) / 2)) := by
  refine ⟨fun h => bisectLoop_exit f n s h, fun q h => bisectLoop_crit f n s q h, ?_, ?_⟩
  · intro fuel T P Td q hne hq
    simp [LCL, hne, hq]
  · intro lf fuel T P Td Tl Pl q hl hq
    have hb : theta_wb lf fuel T P Td =
        (bisectLoop (wbResidual Tl Pl) fuel ((100 : ℝ), thetaD Tl Pl)).map
          (fun q => (q.2 + q.1) / 2) := by
      unfold theta_wb
      rw [hl]
      rfl
    rw [hb, hq]
    rfl

/-- Witness for C1: a concrete bracket over ℚ on which the criterion already
holds and the loop therefore exits at once with the same bracket. -/
theorem spec_C1_witness :
    bisectLoop (fun _ => (0 : ℚ)) 1 ((0 : ℚ), (0 : ℚ)) = some (0, 0) :=
  (spec_C1 (fun _ => (0 : ℚ)) 0 ((0 : ℚ), (0 : ℚ))).1 (by norm_num)

/-- C2 (amended: the guarantee requires the surface temperature to be at least
the 150 K lower bracket bound, not merely positive): for `P > 0`, `T >= 150`,
`Td < T`, if the LCL bisection terminates then `T_lcl <= T`, `P_lcl <= P`, and
`P_lcl` is recomputed one final time from the converged `T_lcl` by the
dry-adiabatic Poisson relation anchored at the surface state. -/
theorem spec_C2 (fuel : ℕ) (T P Td : ℝ) (q : ℝ × ℝ)
    (hT : 150 ≤ T) (hP : 0 < P) (hTd : Td < T)
    (h : LCL fuel T P Td = some q) :
    q.1 ≤ T ∧ q.2 ≤ P ∧ q.2 = lclP T P q.1 := by
  unfold LCL at h
  rw [if_neg hTd.ne'] at h
  obtain ⟨s, hs, hsq⟩ := Option.map_eq_some'.mp h
  obtain ⟨⟨h1, h2⟩, h3, h4⟩ := bisectLoop_envelope _ fuel _ s hs
  dsimp only at h1 h2 h3 h4
  simp only [min_eq_right hT, max_eq_left hT] at h1 h2 h3 h4
  subst hsq
  have hq1 : (s.2 + s.1) / 2 ≤ T := by dsimp at h1 h2 h3 h4 ⊢; linarith
  have hq0 : (0 : ℝ) < (s.2 + s.1) / 2 := by dsimp at h1 h2 h3 h4 ⊢; linarith
  refine ⟨hq1, ?_, rfl⟩
  unfold lclP
  have hT0 : (0 : ℝ) < T := by linarith
  have hx1 : (s.2 + s.1) / 2 / T ≤ 1 := (div_le_one hT0).mpr hq1
  have hx0 : (0 : ℝ) ≤ (s.2 + s.1) / 2 / T := div_nonneg hq0.le hT0.le
  have hr : ((s.2 + s.1) / 2 / T) ^ ((cp / Rd : ℝ)) ≤ 1 :=
    Real.rpow_le_one hx0 hx1 (by norm_num [cp, Rd])
  exact mul_le_of_le_one_left hP.le hr

/-- Witness for C2 at `T = 150`, `P = 1000`, `Td = 100`: the initial bracket is
degenerate, the loop exits at once, and the LCL is the surface state. -/
theorem spec_C2_witness :
    (150 : ℝ) ≤ 150 ∧ (1000 : ℝ) ≤ 1000 ∧ (1000 : ℝ) = lclP 150 1000 150 := by
  have h150 : lclP 150 1000 150 = 1000 := by
    unfold lclP
    rw [div_self (by norm_num : (150 : ℝ) ≠ 0), Real.one_rpow, one_mul]
  have hloop : bisectLoop (lclResidual 150 1000 ((epn * e_s 100) / (1000 - e_s 100))) 1
      ((150 : ℝ), 150) = some (150, 150) :=
    bisectLoop_exit _ 0 _ (by dsimp only; rw [sub_self, abs_zero]; norm_num)
  have hl : LCL 1 150 1000 100 = some (150, 1000) := by
    unfold LCL
    rw [if_neg (by norm_num : (150 : ℝ) ≠ 100), hloop]
    simp only [Option.map_some']
    norm_num [h150]
  simpa using spec_C2 1 150 1000 100 (150, 1000) le_rfl (by norm_num) (by norm_num) hl

/-- Counterexample to C2 as stated: at `T = 100 K` (positive, with `Td = 50 <
T` and `P = 1000 > 0`) both residuals of the initial bracket `(100, 150)` are
below the 1e-6 tolerance, the loop exits immediately, and `LCL` returns
`T_lcl = 125 > T` with `P_lcl = lclP 100 1000 125 > P`. -/
theorem spec_C2_cex :
    LCL 1 100 1000 50 = some (125, lclP 100 1000 125)
    ∧ ¬ ((125 : ℝ) ≤ 100) ∧ ¬ (lclP 100 1000 125 ≤ 1000) := by
  have he50 : e_s 50 ≤ 611 * (0.37 : ℝ) ^ 88 := e_s_le (by norm_num [lv, Rv])
  have he100 : e_s 100 ≤ 611 * (0.37 : ℝ) ^ 34 := e_s_le (by norm_num [lv, Rv])
  have he150 : e_s 150 ≤ 611 * (0.37 : ℝ) ^ 16 := e_s_le (by norm_num [lv, Rv])
  have hp50 := e_s_pos 50
  have hp100v := e_s_pos 100
  have hp150v := e_s_pos 150
  have hA : (611 : ℝ) * (0.37 : ℝ) ^ 88 ≤ 1 / 10 ^ 20 := by norm_num
  have hB : (611 : ℝ) * (0.37 : ℝ) ^ 34 ≤ 1 / 10 ^ 11 := by norm_num
  have hC : (611 : ℝ) * (0.37 : ℝ) ^ 16 ≤ 1 / 10 ^ 4 := by norm_num
  have hepn : (0 : ℝ) ≤ epn := by norm_num [epn]
  -- the surface mixing ratio is tiny
  set w : ℝ := (epn * e_s 50) / (1000 - e_s 50) with hw
  have hd50 : (999 : ℝ) ≤ 1000 - e_s 50 := by linarith
  have hw0 : 0 ≤ w := div_nonneg (mul_nonneg hepn hp50.le) (by linarith)
  have hwle : w ≤ 1 / 10 ^ 9 := by
    have hstep : w ≤ (epn * (611 * (0.37 : ℝ) ^ 88)) / 999 := by
      apply div_le_div (mul_nonneg hepn (by positivity))
        (mul_le_mul_of_nonneg_left he50 hepn) (by norm_num) hd50
    calc w ≤ (epn * (611 * (0.37 : ℝ) ^ 88)) / 999 := hstep
      _ ≤ 1 / 10 ^ 9 := by rw [epn]; norm_num
  -- P_lcl at the two bracket bounds
  have hp100 : lclP 100 1000 100 = 1000 := by
    unfold lclP
    rw [div_self (by norm_num : (100 : ℝ) ≠ 0), Real.one_rpow, one_mul]
  have hp150 : (3375 : ℝ) ≤ lclP 100 1000 150 := by
    unfold lclP
    have hb : ((3 : ℝ) / 2) ^ ((3 : ℕ) : ℝ) ≤ ((3 : ℝ) / 2) ^ ((cp / Rd : ℝ)) :=
      Real.rpow_le_rpow_of_exponent_le (by norm_num) (by norm_num [cp, Rd])
    rw [Real.rpow_natCast] at hb
    have h32 : ((150 : ℝ) / 100) = 3 / 2 := by norm_num
    rw [h32]
    nlinarith
  -- bound the two residuals
  have hq100 : (0 : ℝ) ≤ (epn * e_s 100) / (lclP 100 1000 100 - e_s 100) ∧
      (epn * e_s 100) / (lclP 100 1000 100 - e_s 100) ≤ 1 / 10 ^ 10 := by
    rw [hp100]
    constructor
    · exact div_nonneg (mul_nonneg hepn hp100v.le) (by linarith)
    · have hle : (epn * e_s 100) / (1000 - e_s 100) ≤ (epn * (611 * (0.37 : ℝ) ^ 34)) / 999 :=
        div_le_div (mul_nonneg hepn (by positivity))
          (mul_le_mul_of_nonneg_left he100 hepn) (by norm_num) (by linarith)
      calc (epn * e_s 100) / (1000 - e_s 100) ≤ (epn * (611 * (0.37 : ℝ) ^ 34)) / 999 := hle
        _ ≤ 1 / 10 ^ 10 := by rw [epn]; norm_num
  have hq150 : (0 : ℝ) ≤ (epn * e_s 150) / (lclP 100 1000 150 - e_s 150) ∧
      (epn * e_s 150) / (lclP 100 1000 150 - e_s 150) ≤ 1 / 10 ^ 6 / 4 := by
    have hden : (3374 : ℝ) ≤ lclP 100 1000 150 - e_s 150 := by linarith
    constructor
    · exact div_nonneg (mul_nonneg hepn hp150v.le) (by linarith)
    · have hle : (epn * e_s 150) / (lclP 100 1000 150 - e_s 150) ≤
          (epn * (611 * (0.37 : ℝ) ^ 16)) / 3374 :=
        div_le_div (mul_nonneg hepn (by positivity))
          (mul_le_mul_of_nonneg_left he150 hepn) (by norm_num) hden
      calc (epn * e_s 150) / (lclP 100 1000 150 - e_s 150)
          ≤ (epn * (611 * (0.37 : ℝ) ^ 16)) / 3374 := hle
        _ ≤ 1 / 10 ^ 6 / 4 := by rw [epn]; norm_num
  have habs100 : |lclResidual 100 1000 w 100| ≤ 1 / 10 ^ 6 / 4 := by
    unfold lclResidual
    rw [abs_le]
    constructor
    · linarith [hq100.1, hq100.2]
    · linarith [hq100.1, hq100.2]
  have habs150 : |lclResidual 100 1000 w 150| ≤ 1 / 10 ^ 6 / 4 := by
    unfold lclResidual
    rw [abs_le]
    constructor
    · linarith [hq150.1, hq150.2]
    · linarith [hq150.1, hq150.2]
  have hcrit : |(|lclResidual 100 1000 w ((100 : ℝ), (150 : ℝ)).1|) -
      (|lclResidual 100 1000 w ((100 : ℝ), (150 : ℝ)).2|)| ≤ 1 / 1000000 := by
    dsimp only
    rw [abs_le]
    have u1 := abs_nonneg (lclResidual 100 1000 w 100)
    have u2 := abs_nonneg (lclResidual 100 1000 w 150)
    constructor
    · linarith
    · linarith
  have hloop : bisectLoop (lclResidual 100 1000 w) 1 ((100 : ℝ), 150) = some (100, 150) :=
    bisectLoop_exit _ 0 _ hcrit
  refine ⟨?_, by norm_num, ?_⟩
  · unfold LCL
    rw [if_neg (by norm_num : (100 : ℝ) ≠ 50), ← hw, hloop]
    simp only [Option.map_some']
    norm_num
  · have hb : ((5 : ℝ) / 4) ^ ((3 : ℕ) : ℝ) ≤ ((5 : ℝ) / 4) ^ ((cp / Rd : ℝ)) :=
      Real.rpow_le_rpow_of_exponent_le (by norm_num) (by norm_num [cp, Rd])
    rw [Real.rpow_natCast] at hb
    unfold lclP
    rw [show ((125 : ℝ) / 100) = 5 / 4 by norm_num]
    intro hcontra
    nlinarith

/-- C3: `LCL(T, P, T)` returns exactly `(T, P)` through the degenerate
`T == Td` branch; no bisection iteration is performed (the result is already
available with zero loop fuel). -/
theorem spec_C3 (T P : ℝ) : LCL 0 T P T = some (T, P) := by
  simp [LCL]

lemma bisectStepG_inv {α : Type} [LinearOrderedField α] (f : α → α) (s : α × α) (lo hi : α)
    (h1 : lo ≤ s.2) (h2 : s.2 ≤ s.1) (h3 : s.1 ≤ hi) :
    lo ≤ (bisectStepG f s).2 ∧ (bisectStepG f s).2 ≤ (bisectStepG f s).1 ∧
      (bisectStepG f s).1 ≤ hi := by
  unfold bisectStepG bisectAdvance
  split
  · simp only
    split <;> refine ⟨?_, ?_, ?_⟩ <;> dsimp only <;> linarith
  · exact ⟨h1, h2, h3⟩

/-- C10 (amended: the invariant `150 <= T_low <= T_up <= T` needs the surface
temperature to be at least the 150 K initial lower bound): throughout the LCL
bisection the bracket stays inside `[150, T]`; every executed loop body
assigns the midpoint to exactly one of the two bounds and therefore exactly
halves the (signed) bracket width; and any returned `T_lcl` lies in
`[150, T]`. -/
theorem spec_C10 (T P Td : ℝ) (i : ℕ) (hT : 150 ≤ T) :
    (150 ≤ (lclState T P Td i).2 ∧ (lclState T P Td i).2 ≤ (lclState T P Td i).1 ∧
      (lclState T P Td i).1 ≤ T)
    ∧ (∀ (f : ℝ → ℝ) (s : ℝ × ℝ),
        bisectAdvance f s = (s.1, (s.1 + s.2) / 2) ∨
        bisectAdvance f s = ((s.1 + s.2) / 2, s.2))
    ∧ (∀ (f : ℝ → ℝ) (s : ℝ × ℝ),
        (bisectAdvance f s).1 - (bisectAdvance f s).2 = (s.1 - s.2) / 2)
    ∧ (∀ (fuel : ℕ) (q : ℝ × ℝ), LCL fuel T P Td = some q → 150 ≤ q.1 ∧ q.1 ≤ T) := by
  refine ⟨?_, ?_, ?_, ?_⟩
  · induction i with
    | zero => exact ⟨le_refl _, hT, le_refl _⟩
    | succ n ih =>
      rw [lclState, Function.iterate_succ_apply']
      exact bisectStepG_inv _ _ 150 T ih.1 ih.2.1 ih.2.2
  · intro f s
    simp only [bisectAdvance]
    split
    · exact Or.inl rfl
    · exact Or.inr rfl
  · intro f s
    simp only [bisectAdvance]
    split <;> dsimp only <;> ring
  · intro fuel q h
    unfold LCL at h
    by_cases hTd : T = Td
    · rw [if_pos hTd] at h
      injection h with h2
      subst h2
      exact ⟨hT, le_refl _⟩
    · rw [if_neg hTd] at h
      obtain ⟨s, hs, hsq⟩ := Option.map_eq_some'.mp h
      obtain ⟨⟨h1, h2⟩, h3, h4⟩ := bisectLoop_envelope _ fuel _ s hs
      dsimp only at h1 h2 h3 h4
      simp only [min_eq_right hT, max_eq_left hT] at h1 h2 h3 h4
      subst hsq
      constructor <;> dsimp only <;> linarith

/-- Witness for C10: the invariant after two iterations of the LCL loop at
`T = 150`, `P = 1000`, `Td = 100`. -/
theorem spec_C10_witness :
    150 ≤ (lclState 150 1000 100 2).2 ∧
      (lclState 150 1000 100 2).2 ≤ (lclState 150 1000 100 2).1 ∧
      (lclState 150 1000 100 2).1 ≤ 150 :=
  (spec_C10 150 1000 100 2 le_rfl).1

/-- Counterexample to C10 as stated: for `T = 100 > Td = 50` (with `P = 1000`)
the bracket before the first iteration is `(T_up, T_low) = (100, 150)`, so the
claimed invariant `T_low <= T_up` is already false at iteration 0. -/
theorem spec_C10_cex :
    lclState 100 1000 50 0 = ((100 : ℝ), 150) ∧
    ¬ ((lclState 100 1000 50 0).2 ≤ (lclState 100 1000 50 0).1) := by
  have h0 : lclState 100 1000 50 0 = ((100 : ℝ), 150) := rfl
  refine ⟨h0, ?_⟩
  rw [h0]
  norm_num

lemma exp_neg_le {t : ℝ} (h : 0 ≤ t) : Real.exp (-t) ≤ (1 + t)⁻¹ := by
  have h1 : 1 + t ≤ Real.exp t := by linarith [Real.add_one_le_exp t]
  have h2 : (0 : ℝ) < 1 + t := by linarith
  rw [Real.exp_neg]
  exact inv_le_inv_of_le h2 h1

lemma log_ten_ge : (9 / 4 : ℝ) ≤ Real.log 10 := by
  rw [Real.le_log_iff_exp_le (by norm_num : (0 : ℝ) < 10)]
  have he4 : Real.exp (1 / 4 : ℝ) ≤ 4 / 3 := by
    have h := Real.add_one_le_exp (-(1 / 4) : ℝ)
    rw [Real.exp_neg] at h
    have h34 : (3 / 4 : ℝ) ≤ (Real.exp (1 / 4 : ℝ))⁻¹ := by linarith
    calc Real.exp (1 / 4 : ℝ) = ((Real.exp (1 / 4 : ℝ))⁻¹)⁻¹ := (inv_inv _).symm
      _ ≤ ((3 : ℝ) / 4)⁻¹ := inv_le_inv_of_le (by norm_num) h34
      _ = 4 / 3 := by norm_num
  have he1 : Real.exp 1 ≤ 2.7182818286 := Real.exp_one_lt_d9.le
  have hp1 : (0 : ℝ) < Real.exp 1 := Real.exp_pos 1
  have hp4 : (0 : ℝ) < Real.exp (1 / 4 : ℝ) := Real.exp_pos _
  have h94 : (9 / 4 : ℝ) = 1 + 1 + 1 / 4 := by norm_num
  rw [h94, Real.exp_add, Real.exp_add]
  have h2 : Real.exp 1 * Real.exp 1 ≤ 2.7182818286 ^ 2 := by nlinarith
  have h3 : Real.exp 1 * Real.exp 1 * Real.exp (1 / 4 : ℝ) ≤ 2.7182818286 ^ 2 * (4 / 3) := by
    apply mul_le_mul h2 he4 hp4.le (by positivity)
  calc Real.exp 1 * Real.exp 1 * Real.exp (1 / 4 : ℝ) ≤ 2.7182818286 ^ 2 * (4 / 3) := h3
    _ ≤ 10 := by norm_num

/-- C4 (amended): recomputing the potential temperature from a `DALR` sample
at pressure `P` yields `theta * (100000/P) ^ (Rd/cp + (1 - 1.4)/1.4)` exactly:
`DALR` uses the exponent `(1-gamma)/gamma = -2/7` with `gamma = 1.4` while
`theta` uses `Rd/cp = 287.04/1005`, so the round trip reproduces `theta` only
up to the factor `(100000/P) ^ (-6/58625)` (a relative deviation of order
`1e-4` at the default pressure range), not within floating-point tolerance. -/
theorem spec_C4 (thet p1 p2 step : ℝ) (pr : ℝ × ℝ)
    (hmem : pr ∈ DALR thet p1 p2 step) (hp : 0 < pr.1) :
    theta pr.2 pr.1 = thet * ((100000.0 / pr.1) ^ ((Rd / cp + (1 - 1.4) / 1.4 : ℝ))) := by
  unfold DALR at hmem
  rw [List.mem_map] at hmem
  obtain ⟨i, _, hpr⟩ := hmem
  subst hpr
  dsimp only at hp ⊢
  have hbase : (0 : ℝ) < 100000.0 / (p1 - step * i) := div_pos (by norm_num) hp
  unfold theta
  rw [Real.rpow_add hbase]
  ring

/-- Witness for C4 at the single sample of `DALR 300 100000 90000 20000`. -/
theorem spec_C4_witness :
    theta ((100000.0 / 100000) ^ (((1 - 1.4) / 1.4 : ℝ)) * 300) 100000
      = 300 * ((100000.0 / 100000) ^ ((Rd / cp + (1 - 1.4) / 1.4 : ℝ))) := by
  have hfl : ⌊((100000 : ℝ) - 90000) / 20000⌋ = 0 := by
    rw [Int.floor_eq_zero_iff]
    constructor <;> norm_num
  have hmem : ((100000 : ℝ), (100000.0 / 100000) ^ (((1 - 1.4) / 1.4 : ℝ)) * 300)
      ∈ DALR 300 100000 90000 20000 := by
    unfold DALR
    rw [hfl]
    simp only [Int.toNat_zero, Nat.zero_add, List.range_succ, List.range_zero, List.nil_append,
      List.map_cons, List.map_nil, List.mem_singleton]
    norm_num
  simpa using spec_C4 300 100000 90000 20000 _ hmem (by norm_num)

/-- Counterexample to C4 as stated: at the sample of `DALR 300 10000 10000
1000` (potential temperature 300 K, pressure 10000 Pa) the recomputed
potential temperature differs from 300 K by more than 0.01 K, far beyond any
floating-point tolerance. -/
theorem spec_C4_cex :
    ((DALR 300 10000 10000 1000).getD 0 (0, 0)).1 = 10000
    ∧ 1 / 100 < |theta ((DALR 300 10000 10000 1000).getD 0 (0, 0)).2
        ((DALR 300 10000 10000 1000).getD 0 (0, 0)).1 - 300| := by
  have hfl0 : ⌊((10000 : ℝ) - 10000) / 1000⌋ = 0 := by norm_num
  have hl : DALR 300 10000 10000 1000
      = [((10000 : ℝ), ((10 : ℝ) ^ (((1 - 1.4) / 1.4 : ℝ))) * 300)] := by
    unfold DALR
    rw [hfl0]
    simp only [Int.toNat_zero, Nat.zero_add, List.range_succ, List.range_zero, List.nil_append,
      List.map_cons, List.map_nil]
    norm_num
  rw [hl]
  simp only [List.getD_cons_zero]
  refine ⟨trivial, ?_⟩
  have hsum : (Rd / cp + (1 - 1.4) / 1.4 : ℝ) = -(6 / 58625) := by
    norm_num [Rd, cp]
  have hv : theta ((10 : ℝ) ^ (((1 - 1.4) / 1.4 : ℝ)) * 300) 10000
      = 300 * (10 : ℝ) ^ (-(6 / 58625) : ℝ) := by
    unfold theta
    rw [show (100000.0 / 10000 : ℝ) = 10 by norm_num, ← hsum,
      Real.rpow_add (by norm_num : (0 : ℝ) < 10)]
    ring
  rw [hv]
  have hypos : (0 : ℝ) < (10 : ℝ) ^ (-(6 / 58625) : ℝ) :=
    Real.rpow_pos_of_pos (by norm_num) _
  have hd : (10 : ℝ) ^ (-(6 / 58625) : ℝ) ≤ 117250 / 117277 := by
    rw [Real.rpow_def_of_pos (by norm_num : (0 : ℝ) < 10)]
    have hlog := log_ten_ge
    have harg : Real.log 10 * (-(6 / 58625)) ≤ -(27 / 117250 : ℝ) := by linarith
    calc Real.exp (Real.log 10 * (-(6 / 58625)))
        ≤ Real.exp (-(27 / 117250 : ℝ)) := Real.exp_le_exp.mpr harg
      _ ≤ (1 + 27 / 117250 : ℝ)⁻¹ := exp_neg_le (by norm_num)
      _ ≤ 117250 / 117277 := by norm_num
  rw [abs_of_neg (by nlinarith)]
  nlinarith

lemma e_s_273 : e_s 273.15 = 611 := by
  unfold e_s
  norm_num

lemma e_s_273q : e_s (5463 / 20) = 611 := by
  rw [show (5463 / 20 : ℝ) = 273.15 by norm_num, e_s_273]

/-- C6 (amended: the lower bracket bound, and the θ_dry factor of the
residual, are the potential temperature computed from `T_lcl` and the dry-air
partial pressure `P_lcl - e_s(T_lcl)` — not `theta(T_lcl, P_lcl)`): given a
completed LCL solve, `theta_wb` bisects the stated fixed-point residual,
evaluated at the fixed reference pressure 100000 Pa, starting from the bracket
with upper bound 100 K and lower bound `thetaD(T_lcl, P_lcl)`, and returns the
final-bracket midpoint. -/
theorem spec_C6 (lclFuel fuel : ℕ) (T P Td Tl Pl : ℝ)
    (h : LCL lclFuel T P Td = some (Tl, Pl)) :
    theta_wb lclFuel fuel T P Td
      = (bisectLoop (wbResidualSpec Tl Pl) fuel
          ((100 : ℝ), Tl * ((100000.0 / (Pl - e_s Tl)) ^ ((Rd / cp : ℝ))))).map
        (fun q => (q.2 + q.1) / 2) := by
  have hfun : wbResidualSpec Tl Pl = wbResidual Tl Pl := by
    funext x
    unfold wbResidualSpec wbResidual thetaD
    rfl
  have hd : Tl * ((100000.0 / (Pl - e_s Tl)) ^ ((Rd / cp : ℝ))) = thetaD Tl Pl := rfl
  rw [hfun, hd]
  unfold theta_wb
  rw [h]
  rfl

/-- Witness for C6 through the degenerate LCL at `T = Td = 273.15`,
`P = 100000`. -/
theorem spec_C6_witness :
    theta_wb 0 1 273.15 100000 273.15
      = (bisectLoop (wbResidualSpec 273.15 100000) 1
          ((100 : ℝ), 273.15 * ((100000.0 / (100000 - e_s 273.15)) ^ ((Rd / cp : ℝ))))).map
        (fun q => (q.2 + q.1) / 2) :=
  spec_C6 0 1 273.15 100000 273.15 273.15 100000 (by simp [LCL])

/-- Counterexample to C6 as stated: at `T = Td = 273.15`, `P = 100000` the LCL
is the surface state, and the lower bracket bound `theta_wb` actually uses,
`thetaD 273.15 100000 = 273.15 * (100000/(100000 - 611))^(Rd/cp)`, is not the
potential temperature `theta 273.15 100000 = 273.15` computed from `T_lcl` and
`P_lcl`. -/
theorem spec_C6_cex :
    theta_wb 0 1 273.15 100000 273.15
      = (bisectLoop (wbResidual 273.15 100000) 1 ((100 : ℝ), thetaD 273.15 100000)).map
        (fun q => (q.2 + q.1) / 2)
    ∧ thetaD 273.15 100000 ≠ theta 273.15 100000 := by
  constructor
  · unfold theta_wb
    rw [show LCL 0 273.15 100000 273.15 = some (273.15, 100000) by simp [LCL]]
    rfl
  · have hth : theta 273.15 100000 = 273.15 := by
      unfold theta
      rw [show (100000.0 : ℝ) / 100000 = 1 by norm_num, Real.one_rpow, mul_one]
    have hgt : (273.15 : ℝ) < thetaD 273.15 100000 := by
      unfold thetaD
      rw [e_s_273]
      have h2 : (1 : ℝ) < (100000.0 / (100000 - 611)) ^ ((Rd / cp : ℝ)) := by
        refine (Real.one_lt_rpow_iff_of_pos (by norm_num)).mpr ?_
        exact Or.inl ⟨by norm_num, by norm_num [Rd, cp]⟩
      nlinarith
    rw [hth]
    exact hgt.ne'

lemma mixLoop_exit {α : Type} [LinearOrderedField α] (f : α → α) (n : ℕ) (s : α × α)
    (h : |s.1 - s.2| ≤ 1 / 100) : mixLoop f (n + 1) s = some s := by
  simp only [mixLoop]
  rw [if_neg (not_lt.mpr h)]

lemma mixLoop_crit {α : Type} [LinearOrderedField α] (f : α → α) :
    ∀ (n : ℕ) (s q : α × α), mixLoop f n s = some q → |q.1 - q.2| ≤ 1 / 100 := by
  intro n
  induction n with
  | zero => intro s q h; simp [mixLoop] at h
  | succ n ih =>
    intro s q h
    simp only [mixLoop] at h
    split at h
    · exact ih _ _ h
    · injection h with h2
      subst h2
      next hc => exact not_lt.mp hc

lemma e_s_mixTup {p : ℝ} (hp : 5000 < p) : e_s (mixTup p) = p - 5000 := by
  unfold e_s mixTup
  rw [show (-1 : ℝ) = ((-1 : ℤ) : ℝ) by norm_num, Real.rpow_intCast, zpow_neg_one,
    div_inv_eq_mul, one_mul]
  have harg : (lv / Rv) *
      (1 / 273.15 - (1 / 273.15 - (Rv / lv) * Real.log ((p - 5000.0) / 611.0)))
      = Real.log ((p - 5000.0) / 611.0) := by
    rw [show (1 : ℝ) / 273.15 - (1 / 273.15 - (Rv / lv) * Real.log ((p - 5000.0) / 611.0))
        = (Rv / lv) * Real.log ((p - 5000.0) / 611.0) by ring,
      ← mul_assoc, show (lv / Rv) * (Rv / lv) = 1 by norm_num [lv, Rv], one_mul]
  rw [harg, Real.exp_log (div_pos (by linarith) (by norm_num))]
  field_simp
  ring

/-- C7: every pressure level of `mix_ratio` is solved by a bisection whose
initial bracket is `(mixTup p, 150)` where the upper bound `mixTup p` is
exactly the temperature at which the saturation vapor pressure equals
`p - 5000` Pa, and whose loop exits exactly when the temperature-interval
width `|T_up - T_low|` is at most 0.01 K (a criterion on the bracket width,
not on function-value agreement). -/
theorem spec_C7 (w p : ℝ) (fuel n : ℕ) (g : ℝ → ℝ) (s : ℝ × ℝ) (hp : 5000 < p) :
    e_s (mixTup p) = p - 5000
    ∧ mixLevel fuel w p
        = (mixLoop (fun x => mixing x p - w) fuel (mixTup p, (150 : ℝ))).map
          (fun q => (p, (q.1 + q.2) / 2))
    ∧ (|s.1 - s.2| ≤ 1 / 100 → mixLoop g (n + 1) s = some s)
    ∧ (∀ q : ℝ × ℝ, mixLoop g n s = some q → |q.1 - q.2| ≤ 1 / 100) :=
  ⟨e_s_mixTup hp, rfl, fun h => mixLoop_exit g n s h, fun q h => mixLoop_crit g n s q h⟩

/-- Witness for C7 at the level pressure 100000 Pa and a degenerate width-zero
bracket. -/
theorem spec_C7_witness :
    e_s (mixTup 100000) = 100000 - 5000
    ∧ mixLoop (fun x : ℝ => x) 1 ((0 : ℝ), 0) = some (0, 0) := by
  obtain ⟨h1, _, h3, _⟩ := spec_C7 0 100000 0 0 (fun x : ℝ => x) ((0 : ℝ), 0) (by norm_num)
  exact ⟨h1, h3 (by norm_num)⟩

lemma optList_length {β : Type} :
    ∀ (L : List (Option β)) (l : List β), optList L = some l → l.length = L.length := by
  intro L
  induction L with
  | nil =>
    intro l h
    simp only [optList] at h
    injection h with h2
    subst h2
    rfl
  | cons a rest ih =>
    intro l h
    cases a with
    | none => simp [optList] at h
    | some b =>
      simp only [optList] at h
      obtain ⟨r, hr, hl⟩ := Option.map_eq_some'.mp h
      subst hl
      simp [ih r hr]

lemma optList_getD {β : Type} (d : β) :
    ∀ (L : List (Option β)) (l : List β), optList L = some l →
      ∀ i, i < L.length → L.getD i none = some (l.getD i d) := by
  intro L
  induction L with
  | nil => intro l h i hi; simp at hi
  | cons a rest ih =>
    intro l h i hi
    cases a with
    | none => simp [optList] at h
    | some b =>
      simp only [optList] at h
      obtain ⟨r, hr, hl⟩ := Option.map_eq_some'.mp h
      subst hl
      cases i with
      | zero => simp
      | succ j =>
        simp only [List.getD_cons_succ]
        exact ih r hr j (by simpa using hi)

lemma mixLevel_fst {fuel : ℕ} {w p : ℝ} {x : ℝ × ℝ} (h : mixLevel fuel w p = some x) :
    x.1 = p := by
  unfold mixLevel at h
  obtain ⟨q, _, hq⟩ := Option.map_eq_some'.mp h
  rw [← hq]

/-- C8 (amended: each generator samples pressures `p1 - step*i` for
`i = 0 .. floor((p1-p2)/step)`, so the sequence always starts at `p1` but
reaches `p2` exactly when `step` divides `p1 - p2`; for `MALR` the bounds and
step are the integer truncations the source applies): sample counts and
per-index pressures of `DALR`, `mix_ratio` and `MALR`. -/
theorem spec_C8 (thet w thet_e_0 : ℝ) (p1 p2 step : ℝ) (pz1 pz2 sz : ℤ)
    (lf mf fuel : ℕ) (hp : p2 < p1) (hs : 0 < step) (hpz : pz2 ≤ pz1) (hsz : 0 < sz) :
    (DALR thet p1 p2 step).length = ⌊(p1 - p2) / step⌋.toNat + 1
    ∧ (∀ i, i < (DALR thet p1 p2 step).length →
        ((DALR thet p1 p2 step).getD i (0, 0)).1 = p1 - step * i)
    ∧ ((DALR thet p1 p2 step).getD 0 (0, 0)).1 = p1
    ∧ (∀ k : ℕ, p1 - p2 = step * k →
        k < (DALR thet p1 p2 step).length ∧ ((DALR thet p1 p2 step).getD k (0, 0)).1 = p2)
    ∧ (∀ l, mix_ratio fuel w p1 p2 step = some l →
        l.length = ⌊(p1 - p2) / step⌋.toNat + 1 ∧
        ∀ i, i < l.length → (l.getD i (0, 0)).1 = p1 - step * i)
    ∧ (∀ l, MALR lf mf thet_e_0 pz1 pz2 sz = some l →
        l.length = ((pz1 - pz2) / sz).toNat + 1 ∧
        ∀ i, i < l.length → (l.getD i (0, 0)).1 = pz1 - sz * i) := by
  have hlen : (DALR thet p1 p2 step).length = ⌊(p1 - p2) / step⌋.toNat + 1 := by
    unfold DALR
    rw [List.length_map, List.length_range]
  have hnth : ∀ i, i < (DALR thet p1 p2 step).length →
      ((DALR thet p1 p2 step).getD i (0, 0)).1 = p1 - step * i := by
    intro i hi
    rw [List.getD_eq_getElem _ _ hi]
    unfold DALR
    unfold DALR at hi
    rw [List.getElem_map, List.getElem_range]
  refine ⟨hlen, hnth, ?_, ?_, ?_, ?_⟩
  · have h0 : 0 < (DALR thet p1 p2 step).length := by rw [hlen]; omega
    rw [hnth 0 h0]
    norm_num
  · intro k hk
    have hdiv : ⌊(p1 - p2) / step⌋ = (k : ℤ) := by
      rw [hk, mul_comm, mul_div_assoc, div_self hs.ne', mul_one, Int.floor_natCast]
    have hklen : k < (DALR thet p1 p2 step).length := by
      rw [hlen, hdiv]
      omega
    refine ⟨hklen, ?_⟩
    rw [hnth k hklen]
    linarith
  · intro l hl
    unfold mix_ratio at hl
    have hlenl := optList_length _ l hl
    rw [List.length_map, List.length_range] at hlenl
    refine ⟨hlenl, ?_⟩
    intro i hi
    have hi2 : i < ((List.range (⌊(p1 - p2) / step⌋.toNat + 1)).map
        (fun (i : ℕ) => mixLevel fuel w (p1 - step * (i : ℝ)))).length := by
      rw [List.length_map, List.length_range]
      omega
    have hg := optList_getD (0, 0) _ l hl i hi2
    rw [List.getD_eq_getElem _ _ hi2, List.getElem_map, List.getElem_range] at hg
    exact mixLevel_fst hg
  · intro l hl
    unfold MALR at hl
    have hxlen : (xrangeDown pz1 (pz2 - 1) sz).length = ((pz1 - pz2) / sz).toNat + 1 := by
      unfold xrangeDown
      rw [List.length_map, List.length_range]
      have he : pz1 - (pz2 - 1) + sz - 1 = (pz1 - pz2) + 1 * sz := by ring
      rw [he, Int.add_mul_ediv_right _ _ hsz.ne']
      have hnn : 0 ≤ (pz1 - pz2) / sz := Int.ediv_nonneg (by omega) hsz.le
      omega
    have hlenl := optList_length _ l hl
    rw [List.length_map, hxlen] at hlenl
    refine ⟨hlenl, ?_⟩
    intro i hi
    have hi2 : i < ((xrangeDown pz1 (pz2 - 1) sz).map (fun (p : ℤ) =>
        (mLoopO (fun x => (theta_e lf x (p : ℝ) x).map (fun v => v - thet_e_0)) mf
            ((1 / 273.15 - (Rv / lv) * Real.log (((p : ℝ) - 5000.0) / 611.0)) ^ ((-1 : ℝ)),
              100)).map (fun q => (p, (q.1 + q.2) / 2)))).length := by
      rw [List.length_map, hxlen]
      omega
    have hg := optList_getD (0, 0) _ l hl i hi2
    rw [List.getD_eq_getElem _ _ hi2, List.getElem_map] at hg
    have hib : i < (xrangeDown pz1 (pz2 - 1) sz).length := by
      rw [hxlen]
      rw [List.length_map, hxlen] at hi2
      omega
    have hx : (xrangeDown pz1 (pz2 - 1) sz)[i] = pz1 - sz * i := by
      unfold xrangeDown
      rw [List.getElem_map, List.getElem_range]
    rw [hx] at hg
    obtain ⟨q, _, hq⟩ := Option.map_eq_some'.mp hg
    rw [← hq]

/-- Witness for C8: the sample count of a concrete dry adiabat. -/
theorem spec_C8_witness :
    (DALR 300 100000 90000 1000).length = ⌊((100000 : ℝ) - 90000) / 1000⌋.toNat + 1 :=
  (spec_C8 300 0.01 340 100000 90000 1000 100000 90000 1000 0 0 0 (by norm_num)
    (by norm_num) (by norm_num) (by norm_num)).1

/-- Counterexample to C8 as stated: with `p1 = 3 > p2 = 2` and `step = 2 > 0`,
`DALR` produces the single pressure sample `[3]`, which does not include the
upper bound `p2 = 2`. -/
theorem spec_C8_cex :
    (DALR 300 3 2 2).map Prod.fst = [(3 : ℝ)]
    ∧ ¬ ((2 : ℝ) ∈ (DALR 300 3 2 2).map Prod.fst)
    ∧ (2 : ℝ) < 3 ∧ (0 : ℝ) < 2 := by
  have hfl : ⌊((3 : ℝ) - 2) / 2⌋ = 0 := by
    rw [Int.floor_eq_zero_iff]
    constructor <;> norm_num
  have hl : (DALR 300 3 2 2).map Prod.fst = [(3 : ℝ)] := by
    unfold DALR
    rw [hfl]
    simp only [Int.toNat_zero, Nat.zero_add, List.range_succ, List.range_zero, List.nil_append,
      List.map_cons, List.map_nil]
    norm_num
  refine ⟨hl, ?_, by norm_num, by norm_num⟩
  rw [hl]
  simp only [List.mem_singleton]
  norm_num

lemma ELscanAux_step (prs et ed pt pd : List ℝ) (i : ℕ) (h : i < prs.length)
    (hgt : scanTv prs pt pd i < scanTv prs et ed i) :
    ELscanAux prs et ed pt pd i = ELscanAux prs et ed pt pd (i + 1) := by
  rw [ELscanAux]
  rw [dif_pos h, if_neg hgt.ne', if_neg (lt_asymm hgt)]

lemma ELscanAux_skip (prs et ed pt pd : List ℝ) :
    ∀ (m i : ℕ), (∀ k, i ≤ k → k < i + m → k < prs.length →
        scanTv prs pt pd k < scanTv prs et ed k) →
      i + m ≤ prs.length →
      ELscanAux prs et ed pt pd i = ELscanAux prs et ed pt pd (i + m) := by
  intro m
  induction m with
  | zero => intro i _ _; rfl
  | succ n ih =>
    intro i hk hle
    have hi : i < prs.length := by omega
    rw [ELscanAux_step prs et ed pt pd i hi (hk i le_rfl (by omega) hi)]
    have hrec := ih (i + 1) (fun k h1 h2 h3 => hk k (by omega) (by omega) h3) (by omega)
    rw [hrec]
    congr 1
    omega

/-- C5 (amended: when the first sample at which the parcel is warmer is the
topmost sample, the Python index `(-1)*0 = 0` aliases the first -- surface --
entry, so the midpoint is taken with the surface sample rather than with a
sample above): scanning from the top, an exact virtual-temperature equality
returns that sample's pressure directly; otherwise the first strictly-warmer
sample at scan step `j` returns `0.5 * (prs[n-1-j] + prs[n-j])` (the adjacent
sample above) when `j >= 1`, and `0.5 * (prs[n-1] + prs[0])` when `j = 0`;
no further bisection refinement is performed. -/
theorem spec_C5 (prs et ed pt pd : List ℝ) (j : ℕ) (hj : j < prs.length)
    (hprev : ∀ k, k < j → scanTv prs pt pd k < scanTv prs et ed k) :
    (scanTv prs et ed j = scanTv prs pt pd j →
      ELscan prs et ed pt pd = some (prs.getD (prs.length - 1 - j) 0))
    ∧ (scanTv prs et ed j < scanTv prs pt pd j →
      ELscan prs et ed pt pd = some (0.5 * (prs.getD (prs.length - 1 - j) 0 +
        prs.getD (if j = 0 then 0 else prs.length - j) 0))) := by
  have hskip : ELscan prs et ed pt pd = ELscanAux prs et ed pt pd j := by
    unfold ELscan
    have h := ELscanAux_skip prs et ed pt pd j 0
      (fun k _ h2 _ => hprev k (by omega)) (by omega)
    simpa using h
  constructor
  · intro heq
    rw [hskip, ELscanAux, dif_pos hj, if_pos heq]
  · intro hlt
    rw [hskip, ELscanAux, dif_pos hj, if_neg (ne_of_lt hlt), if_pos hlt]

/-- Witness for C5: on a three-level sounding whose parcel is colder at the
top and first becomes warmer at scan step `j = 1`, the scan returns the
midpoint of the warm sample's pressure and the pressure of the sample above
it. -/
theorem spec_C5_witness :
    ELscan [(100000 : ℝ), 90000, 80000] [280, 250, 260] [273.15, 273.15, 273.15]
        [280, 260, 250] [273.15, 273.15, 273.15]
      = some (0.5 * ((90000 : ℝ) + 80000)) := by
  have hprev : ∀ k, k < 1 →
      scanTv [(100000 : ℝ), 90000, 80000] [280, 260, 250] [273.15, 273.15, 273.15] k <
      scanTv [(100000 : ℝ), 90000, 80000] [280, 250, 260] [273.15, 273.15, 273.15] k := by
    intro k hk
    interval_cases k
    simp only [scanTv, virt_T, mixing, e_s_273, List.length_cons, List.length_nil]
    norm_num [e_s_273q, epn]
  have hlt : scanTv [(100000 : ℝ), 90000, 80000] [280, 250, 260] [273.15, 273.15, 273.15] 1 <
      scanTv [(100000 : ℝ), 90000, 80000] [280, 260, 250] [273.15, 273.15, 273.15] 1 := by
    simp only [scanTv, virt_T, mixing, e_s_273, List.length_cons, List.length_nil]
    norm_num [e_s_273q, epn]
  exact (spec_C5 [(100000 : ℝ), 90000, 80000] [280, 250, 260] [273.15, 273.15, 273.15]
    [280, 260, 250] [273.15, 273.15, 273.15] 1 (by norm_num) hprev).2 hlt

/-- Counterexample to C5 as stated: on a two-level sounding whose parcel is
already warmer at the topmost sample (pressure 90000), the scan returns
`0.5 * (90000 + 100000) = 95000`, the midpoint with the SURFACE sample
`prs_prof[0]` (Python's `prs_prof[(-1)*0]`); every other sample lies at higher
pressure, so this is not the midpoint with any adjacent sample above. -/
theorem spec_C5_cex :
    ELscan [(100000 : ℝ), 90000] [280, 250] [273.15, 273.15] [280, 260] [273.15, 273.15]
      = some (0.5 * ((90000 : ℝ) + 100000))
    ∧ (90000 : ℝ) < 0.5 * ((90000 : ℝ) + 100000) := by
  have hlt : scanTv [(100000 : ℝ), 90000] [280, 250] [273.15, 273.15] 0 <
      scanTv [(100000 : ℝ), 90000] [280, 260] [273.15, 273.15] 0 := by
    simp only [scanTv, virt_T, mixing, e_s_273, List.length_cons, List.length_nil]
    norm_num [e_s_273q, epn]
  constructor
  · unfold ELscan
    rw [ELscanAux, dif_pos (by norm_num), if_neg (ne_of_lt hlt), if_pos hlt]
    norm_num
  · norm_num

/-- C9: if at every scanned sample the parcel virtual temperature is strictly
below the environmental one (no buoyancy crossing anywhere), the `EL` scan
falls through without producing an equilibrium-level value: the embedded
result is `none`, not a pressure. -/
theorem spec_C9 (prs et ed pt pd : List ℝ)
    (h : ∀ k, k < prs.length → scanTv prs pt pd k < scanTv prs et ed k) :
    ELscan prs et ed pt pd = none := by
  unfold ELscan
  rw [ELscanAux_skip prs et ed pt pd prs.length 0 (fun k _ _ h3 => h k h3) (by omega)]
  rw [ELscanAux]
  rw [dif_neg (by omega)]

/-- Witness for C9: a two-level sounding whose parcel is strictly colder than
the environment at both samples. -/
theorem spec_C9_witness :
    ELscan [(100000 : ℝ), 90000] [280, 270] [273.15, 273.15] [270, 260] [273.15, 273.15]
      = none := by
  apply spec_C9
  intro k hk
  simp only [List.length_cons, List.length_nil] at hk
  interval_cases k <;>
    · simp only [scanTv, virt_T, mixing, e_s_273, List.length_cons, List.length_nil]
      norm_num [e_s_273q, epn]

end ThermoScripts
